import Mathlib

/-!
Verification of the Aisher error-analysis core: the TOON tabular encoder
(`toon_formatter.py`), the smart-truncation helpers and the resilient
fetch orchestrator (`repository.py`), and the relevant parts of the
configuration (`config.py`).  Python strings are modelled as `List Char`.
-/

abbrev Str := List Char

/-- Python `s.count(c)` for a single character. -/
def countChar (c : Char) : Str → Nat
  | [] => 0
  | d :: rest => (if d = c then 1 else 0) + countChar c rest

/-- Python `c in s` membership test for a single character. -/
def hasChar (c : Char) : Str → Bool
  | [] => false
  | d :: rest => d == c || hasChar c rest

/-- Python `s.startswith(c)` for a single character. -/
def startsWith1 (c : Char) : Str → Bool
  | [] => false
  | d :: _ => d == c

/-- Python `s.endswith(c)` for a single character. -/
def endsWith1 (c : Char) (s : Str) : Bool :=
  match s.getLast? with
  | none => false
  | some d => d == c

/-- Python `s.replace(old, new)` where `old` is a single character. -/
def replaceChar (old : Char) (new : Str) : Str → Str
  | [] => []
  | c :: rest => (if c = old then new else [c]) ++ replaceChar old new rest

/-- The escape chain of `ToonFormatter._escape_string` (toon_formatter.py
lines 26-32): backslash, double quote, newline, carriage return, tab,
applied by successive `str.replace` calls in that order. -/
def pyEscape (s : Str) : Str :=
  replaceChar '\t' ['\\', 't']
    (replaceChar '\r' ['\\', 'r']
      (replaceChar '\n' ['\\', 'n']
        (replaceChar '"' ['\\', '"']
          (replaceChar '\\' ['\\', '\\'] s))))

/-- Character-level view of the escape chain: what one input character
contributes to the escaped output. -/
def escChar (c : Char) : Str :=
  if c = '\\' then ['\\', '\\']
  else if c = '"' then ['\\', '"']
  else if c = '\n' then ['\\', 'n']
  else if c = '\r' then ['\\', 'r']
  else if c = '\t' then ['\\', 't']
  else [c]

/-- Character-by-character form of the escape chain. -/
def escF : Str → Str
  | [] => []
  | c :: rest => escChar c ++ escF rest

/-- Reversal of one escape pair: the character following a backslash. -/
def unescChar (c : Char) : Str :=
  if c = '\\' then ['\\']
  else if c = '"' then ['"']
  else if c = 'n' then ['\n']
  else if c = 'r' then ['\r']
  else if c = 't' then ['\t']
  else ['\\', c]

/-- Left-to-right reversal of the escape substitutions: each backslash
consumes the following character and is decoded by `unescChar`. -/
def pyUnescape : Str → Str
  | [] => []
  | c :: rest =>
    if c = '\\' then
      match rest with
      | [] => ['\\']
      | d :: rest2 => unescChar d ++ pyUnescape rest2
    else c :: pyUnescape rest

/-- Decimal digit to character, as in Python integer formatting. -/
def digitChar (d : Nat) : Char := Char.ofNat (48 + d)

/-- Fuel-driven decimal printer for naturals (most significant digit first). -/
def natStrGo : Nat → Nat → Str
  | 0, _ => []
  | fuel + 1, n => if n = 0 then [] else natStrGo fuel (n / 10) ++ [digitChar (n % 10)]

/-- Python `str(n)` for a non-negative integer. -/
def natStr (n : Nat) : Str := if n = 0 then ['0'] else natStrGo n n

/-- Python `str(n)` for an integer. -/
def intStr : Int → Str
  | .ofNat m => natStr m
  | .negSucc m => '-' :: natStr (m + 1)

/-- A scalar value of a record field, as passed to the formatter. -/
inductive PyVal
  | vNone
  | vStr (s : Str)
  | vInt (n : Int)
deriving DecidableEq

/-- Python `str(value)` on a record value (`None` prints as `None`). -/
def pyStr : PyVal → Str
  | .vNone => "None".toList
  | .vStr s => s
  | .vInt n => intStr n

/-- The structural characters checked by `_escape_string` (the Python string
literal scanned by `any(c in val_str for c in ...)`). -/
def structuralChars : Str := ['{', '}', ':', '[', ']']

/-- The quoting condition of `ToonFormatter._escape_string` (toon_formatter.py
lines 35-41), evaluated on the already-escaped string. -/
def needs_quotes (delim : Char) (v : Str) : Bool :=
  hasChar delim v || startsWith1 ' ' v || endsWith1 ' ' v || v.isEmpty ||
    structuralChars.any (fun c => hasChar c v)

/-- `ToonFormatter._escape_string` (toon_formatter.py lines 12-43):
`None` becomes the literal text `null`; any other value is stringified,
escaped by the five substitutions, and wrapped in double quotes exactly
when `needs_quotes` holds on the escaped string. -/
def escape_string (delim : Char) (v : PyVal) : Str :=
  match v with
  | .vNone => "null".toList
  | _ =>
    let s := pyEscape (pyStr v)
    if needs_quotes delim s then '"' :: (s ++ ['"']) else s

/-- Python `sep.join(parts)` for a single-character separator. -/
def joinSep (sep : Char) : List Str → Str
  | [] => []
  | [s] => s
  | s :: t :: rest => s ++ sep :: joinSep sep (t :: rest)

/-- One record: an ordered mapping from field name to value, the shape
`item.model_dump()` produces. -/
abbrev Record := List (Str × PyVal)

/-- Python `row[k]`: first value bound to key `k`. -/
def dictLookup (r : Record) (k : Str) : Option PyVal :=
  match r with
  | [] => none
  | (k2, v) :: rest => if k2 = k then some v else dictLookup rest k

/-- The delimiter-selection sample of `format_tabular` (line 62): the
space-joined concatenation of `str(v)` over every value of every record. -/
def sample_text (batch : List Record) : Str :=
  joinSep ' ' ((batch.map (fun r => r.map (fun kv => pyStr kv.snd))).flatten)

/-- Cost-based delimiter optimization of `format_tabular` (lines 61-66). -/
def chooseDelimiter (batch : List Record) : Char :=
  if countChar ',' (sample_text batch) > countChar '|' (sample_text batch) * 2
  then '|' else ','

/-- The header line of `format_tabular` (lines 68-71). -/
def header_line (name : Str) (count : Nat) (marker : Str) (keys : List Str) : Str :=
  name ++ '[' :: (natStr count ++ marker ++ ']' :: '{' :: (joinSep ',' keys ++ ['}', ':']))

/-- One data row of `format_tabular` (lines 75-77). -/
def rowLine (delim : Char) (keys : List Str) (r : Record) : Str :=
  joinSep delim (keys.map (fun k => escape_string delim ((dictLookup r k).getD PyVal.vNone)))

/-- `ToonFormatter.format_tabular` (toon_formatter.py lines 45-79). -/
def format_tabular (batch : List Record) (name : Str) : Str :=
  match batch with
  | [] => name ++ ['[', '0', ']', ':']
  | r0 :: _ =>
    let keys := r0.map Prod.fst
    let delim := chooseDelimiter batch
    let marker : Str := if delim = '|' then ['|'] else []
    joinSep '\n'
      (header_line name batch.length marker keys :: batch.map (rowLine delim keys))

/-- The spec-side quoting condition, stated on the original (pre-escape)
value as in spec section 4.2: contains the active delimiter, starts or ends
with a space, is empty, or contains a structural character. -/
def quoteCondOrig (delim : Char) (s : Str) : Bool :=
  hasChar delim s || startsWith1 ' ' s || endsWith1 ' ' s || s.isEmpty ||
    structuralChars.any (fun c => hasChar c s)

/-- Number of lines of a text: newline count plus one. -/
def lineCount (s : Str) : Nat := countChar '\n' s + 1

/-- Scanner for the quote/backslash shape of escaped text: `p` counts the
backslashes immediately before the current position; every double quote
must be preceded by an odd number of backslashes. -/
def qOk : Nat → Str → Bool
  | _, [] => true
  | p, c :: rest =>
    if c = '\\' then qOk (p + 1) rest
    else if c = '"' then (p % 2 == 1) && qOk 0 rest
    else qOk 0 rest

/-- Length of the maximal backslash run ending the text, continuing an
initial run of length `p`. -/
def endRun : Nat → Str → Nat
  | p, [] => p
  | p, c :: rest => if c = '\\' then endRun (p + 1) rest else endRun 0 rest

/-- The truncation marker of `_truncate_stacktrace` (repository.py line 245). -/
def truncMarker : Str := '\n' :: ("...[truncated]...".toList ++ ['\n'])

/-- Python `s[-n:]` for a natural `n`: the empty slice bound `-0` yields the
whole string, otherwise the last `n` characters. -/
def pyTail (n : Nat) (s : Str) : Str :=
  if n = 0 then s else s.drop (s.length - n)

/-- `SigNozRepository._truncate_stacktrace` (repository.py lines 230-247),
parametrized by the configured bounds `STACK_MAX_LENGTH`,
`STACK_HEAD_LENGTH`, `STACK_TAIL_LENGTH`: a falsy (absent or empty) input
gives the empty string; a string of length at most `maxL` is unchanged;
otherwise the first `headL` characters, the marker, and the Python slice
`s[-tailL:]`. -/
def truncate_stacktrace (maxL headL tailL : Nat) (st : Option Str) : Str :=
  match st with
  | none => []
  | some s =>
    if s = [] then []
    else if s.length <= maxL then s
    else s.take headL ++ truncMarker ++ pyTail tailL s

/-- The ellipsis marker of `_truncate_json_attribute` (repository.py line 265). -/
def jsonMarker : Str := "...[truncated]".toList

/-- `SigNozRepository._truncate_json_attribute` (repository.py lines
249-265), parametrized by the single bound the code reads as
`settings.JSON_ATTR_MAX_LENGTH` (the repository tests fix it at 2000):
falsy input gives `None`, a string of length at most the bound is
unchanged, a longer one keeps its first `maxL` characters plus the marker. -/
def truncate_json_attribute (maxL : Nat) (js : Option Str) : Option Str :=
  match js with
  | none => none
  | some s =>
    if s = [] then none
    else if s.length <= maxL then some s
    else some (s.take maxL ++ jsonMarker)

/-- The declared field names of `Settings` (config.py lines 13-38). -/
def settingsFieldNames : List Str :=
  ["CLICKHOUSE_HOST", "CLICKHOUSE_PORT", "CLICKHOUSE_USER",
   "CLICKHOUSE_PASSWORD", "CLICKHOUSE_DATABASE", "LLM_MODEL",
   "OPENAI_API_KEY", "QUERY_TIMEOUT", "LLM_TIMEOUT", "MAX_RETRIES",
   "STACK_MAX_LENGTH", "STACK_HEAD_LENGTH", "STACK_TAIL_LENGTH"].map
    String.toList

/-- Configured `MAX_RETRIES` (config.py line 27). -/
def MAX_RETRIES : Nat := 3

/-- Configured `STACK_MAX_LENGTH` (config.py line 30). -/
def STACK_MAX_LENGTH : Nat := 600

/-- Configured `STACK_HEAD_LENGTH` (config.py line 31). -/
def STACK_HEAD_LENGTH : Nat := 250

/-- Configured `STACK_TAIL_LENGTH` (config.py line 32). -/
def STACK_TAIL_LENGTH : Nat := 350

/-- Outcome of one `_fetch_errors_internal` attempt as seen by the retry
loop of `fetch_errors`: a successful record list, a retryable failure
(`DatabaseError` or `asyncio.TimeoutError`), or any other exception. -/
inductive Outcome (A : Type)
  | success (recs : List A)
  | retryable
  | fatal
deriving DecidableEq

/-- Observable behaviour of one `fetch_errors` call: the returned records,
how many times the data source was invoked, and the backoff sleeps
performed between attempts, in order. -/
structure FetchResult (A : Type) where
  records : List A
  attempts : Nat
  waits : List Nat
deriving DecidableEq

/-- The validation failures raised by `fetch_errors` (repository.py lines
132-136) before any attempt. -/
inductive FetchError
  | limitOutOfRange (limit : Int)
  | timeWindowOutOfRange (tw : Int)
deriving DecidableEq

/-- The retry loop of `fetch_errors` (repository.py lines 138-162) run over
the remaining attempt indices: a success returns immediately; a retryable
failure sleeps `2 ^ attempt` when further attempts remain; any other
failure returns an empty list immediately; an exhausted loop returns an
empty list. -/
def runAttempts {A : Type} (maxR : Nat) (src : Nat -> Outcome A) :
    List Nat -> FetchResult A
  | [] => { records := [], attempts := 0, waits := [] }
  | i :: rest =>
    match src i with
    | .success recs => { records := recs, attempts := 1, waits := [] }
    | .retryable =>
      let r := runAttempts maxR src rest
      if i < maxR - 1 then
        { records := r.records, attempts := r.attempts + 1, waits := 2 ^ i :: r.waits }
      else
        { records := r.records, attempts := r.attempts + 1, waits := r.waits }
    | .fatal => { records := [], attempts := 1, waits := [] }

/-- `SigNozRepository.fetch_errors` (repository.py lines 109-162): validate
`limit` and `time_window_minutes`, then run up to `maxR` attempts against
the data source. -/
def fetch_errors {A : Type} (maxR : Nat) (src : Nat -> Outcome A)
    (limit tw : Int) : Except FetchError (FetchResult A) :=
  if ¬ (1 ≤ limit ∧ limit ≤ 1000) then .error (.limitOutOfRange limit)
  else if ¬ (1 ≤ tw ∧ tw ≤ 10080) then .error (.timeWindowOutOfRange tw)
  else .ok (runAttempts maxR src (List.range maxR))

/-- One raw row of the Golden Query result, in the positional layout listed
at repository.py lines 191-201.  Nullable text columns are `Option Str`
(with the empty string a distinct, falsy value) and the HTTP status is an
optional integer (0 and absence are both falsy). -/
structure SourceRow where
  timestamp : Str
  trace_id : Str
  span_id : Str
  service_name : Str
  span_name : Str
  error_type : Option Str
  error_message : Option Str
  stacktrace : Option Str
  http_status : Option Int
  http_method : Option Str
  http_url : Option Str
  db_system : Option Str
  db_operation : Option Str
  span_attributes : Option Str
  resource_attributes : Option Str
  related_events : Option Str
deriving DecidableEq

/-- The `ErrorLog` model (models.py lines 5-35). -/
structure ErrorLog where
  trace_id : Str
  span_id : Str
  timestamp : Str
  service_name : Str
  span_name : Str
  error_type : Str
  error_message : Str
  stacktrace : Str
  http_status : Option Int
  http_method : Option Str
  http_url : Option Str
  db_system : Option Str
  db_operation : Option Str
  span_attributes : Option Str
  resource_attributes : Option Str
  related_events : Option Str
deriving DecidableEq

/-- Python `x or None` on an optional string: absent and empty both give
`None`. -/
def strOrNone (s : Option Str) : Option Str :=
  match s with
  | none => none
  | some v => if v = [] then none else some v

/-- Python `int(x) if x else None` on an optional integer status: absent
and 0 both give `None`. -/
def statusOrNone (x : Option Int) : Option Int :=
  match x with
  | none => none
  | some v => if v = 0 then none else some v

/-- The row-to-record transformation of `_fetch_errors_internal`
(repository.py lines 203-225), with the JSON-attribute bound `jsonMax`
passed explicitly. -/
def transformRow (jsonMax : Nat) (row : SourceRow) : ErrorLog :=
  { trace_id := row.trace_id
    span_id := row.span_id
    timestamp := row.timestamp
    service_name := row.service_name
    span_name := row.span_name
    error_type := row.error_type.getD "Unknown".toList
    error_message := row.error_message.getD "No message".toList
    stacktrace :=
      truncate_stacktrace STACK_MAX_LENGTH STACK_HEAD_LENGTH STACK_TAIL_LENGTH
        row.stacktrace
    http_status := statusOrNone row.http_status
    http_method := strOrNone row.http_method
    http_url := strOrNone row.http_url
    db_system := strOrNone row.db_system
    db_operation := strOrNone row.db_operation
    span_attributes := truncate_json_attribute jsonMax row.span_attributes
    resource_attributes := truncate_json_attribute jsonMax row.resource_attributes
    related_events := strOrNone row.related_events }


/-- Whether a record value is a string. -/
def isStrB : PyVal → Bool
  | .vStr _ => true
  | _ => false

/-- The escaped token emitted for a string value. -/
def tok (d : Char) (s : Str) : Str := escape_string d (.vStr s)

/-- A sample row with every optional field absent. -/
def sampleRowN : SourceRow :=
  { timestamp := "t0".toList, trace_id := "tr".toList, span_id := "sp".toList
    service_name := "svc".toList, span_name := "op".toList
    error_type := none, error_message := none, stacktrace := none
    http_status := none, http_method := none, http_url := none
    db_system := none, db_operation := none, span_attributes := none
    resource_attributes := none, related_events := none }

/-- The sample row with a zero HTTP status. -/
def sampleRow0 : SourceRow := { sampleRowN with http_status := some 0 }

/-- The sample row with HTTP status 7. -/
def sampleRow7 : SourceRow := { sampleRowN with http_status := some 7 }

/-- A data source that fails retryably twice and then succeeds. -/
def srcThird : Nat → Outcome Nat :=
  fun i => if i < 2 then .retryable else .success [42]

/-- A data source that always fails retryably. -/
def srcAlways : Nat → Outcome Nat := fun _ => .retryable

/-- A data source that fails fatally at once. -/
def srcFatalNow : Nat → Outcome Nat := fun _ => .fatal


/-- A two-record demonstration batch with a single column. -/
def demoBatch : List Record :=
  [[("svc".toList, PyVal.vStr "api-gateway".toList)],
   [("svc".toList, PyVal.vStr "payment-service".toList)]]


theorem replaceChar_append (old : Char) (new : Str) (a b : Str) :
    replaceChar old new (a ++ b) = replaceChar old new a ++ replaceChar old new b := by
  induction a with
  | nil => rfl
  | cons c rest ih => simp [replaceChar, ih]

theorem pyEscape_eq_escF (s : Str) : pyEscape s = escF s := by
  induction s with
  | nil => rfl
  | cons c rest ih =>
    have h1 : pyEscape (c :: rest) = pyEscape [c] ++ pyEscape rest := by
      show pyEscape ([c] ++ rest) = _
      simp only [pyEscape, replaceChar_append]
    rw [h1, ih]
    show pyEscape [c] ++ escF rest = escChar c ++ escF rest
    congr 1
    by_cases hb : c = '\\'
    · subst hb; rfl
    · by_cases hq : c = '"'
      · subst hq; rfl
      · by_cases hn : c = '\n'
        · subst hn; rfl
        · by_cases hr : c = '\r'
          · subst hr; rfl
          · by_cases ht : c = '\t'
            · subst ht; rfl
            · simp [pyEscape, replaceChar, escChar, hb, hq, hn, hr, ht]

theorem pyUnescape_bs (d : Char) (rest : Str) :
    pyUnescape ('\\' :: d :: rest) = unescChar d ++ pyUnescape rest := rfl

theorem pyUnescape_ne (c : Char) (rest : Str) (h : ¬ c = '\\') :
    pyUnescape (c :: rest) = c :: pyUnescape rest := by
  cases rest with
  | nil => simp [pyUnescape, h]
  | cons d rest2 => simp [pyUnescape, h]

theorem pyUnescape_escF (s : Str) : pyUnescape (escF s) = s := by
  induction s with
  | nil => rfl
  | cons c rest ih =>
    by_cases hb : c = '\\'
    · subst hb; simp [escF, escChar, pyUnescape_bs, unescChar, ih]
    · by_cases hq : c = '"'
      · subst hq; simp [escF, escChar, pyUnescape_bs, unescChar, ih]
      · by_cases hn : c = '\n'
        · subst hn; simp [escF, escChar, pyUnescape_bs, unescChar, ih]
        · by_cases hr : c = '\r'
          · subst hr; simp [escF, escChar, pyUnescape_bs, unescChar, ih]
          · by_cases ht : c = '\t'
            · subst ht; simp [escF, escChar, pyUnescape_bs, unescChar, ih]
            · have hne : escF (c :: rest) = c :: escF rest := by
                simp [escF, escChar, hb, hq, hn, hr, ht]
              rw [hne, pyUnescape_ne c (escF rest) hb, ih]

theorem pyUnescape_pyEscape (s : Str) : pyUnescape (pyEscape s) = s := by
  rw [pyEscape_eq_escF]; exact pyUnescape_escF s

theorem pyEscape_injective (s t : Str) (h : pyEscape s = pyEscape t) : s = t := by
  have hs := pyUnescape_pyEscape s
  have ht := pyUnescape_pyEscape t
  rw [← hs, ← ht, h]

/-- C4: applying the escaping substitutions (backslash, double quote,
newline, carriage return, tab, in that order) and then reversing those
substitutions yields exactly the original string; in particular the
escaping is injective. -/
theorem escape_roundtrip (s : Str) : pyUnescape (pyEscape s) = s :=
  pyUnescape_pyEscape s

/-- C5 counterexample: with `tail_length = 0` (and `head_length +
tail_length` different from `max_length`), the code appends the whole
string after the marker — Python `s[-0:]` is `s` — rather than the last
`tail_length = 0` characters predicted by the claim. -/
theorem truncate_stacktrace_zero_tail_cex :
    truncate_stacktrace 2 1 0 (some "abc".toList) ≠
      ("abc".toList).take 1 ++ truncMarker ++
        ("abc".toList).drop ("abc".toList.length - 0) ∧
    truncate_stacktrace 2 1 0 (some "abc".toList) =
      "a".toList ++ truncMarker ++ "abc".toList :=
  ⟨by decide, by decide⟩

/-- C5 (amended): for any bounds with `tail_length ≥ 1`, a null or empty
input yields the empty string, a string of length at most `max_length` is
returned unchanged, and a strictly longer string becomes its first
`head_length` characters, the marker, and its last `tail_length`
characters — for arbitrary `head_length` and `tail_length`. -/
theorem truncate_stacktrace_policy (maxL headL tailL : Nat) (s : Str)
    (ht : 1 ≤ tailL) :
    truncate_stacktrace maxL headL tailL none = [] ∧
    truncate_stacktrace maxL headL tailL (some []) = [] ∧
    (s.length ≤ maxL → truncate_stacktrace maxL headL tailL (some s) = s) ∧
    (maxL < s.length →
      truncate_stacktrace maxL headL tailL (some s) =
        s.take headL ++ truncMarker ++ s.drop (s.length - tailL)) := by
  refine ⟨rfl, by simp [truncate_stacktrace], ?_, ?_⟩
  · intro hle
    by_cases hs : s = []
    · subst hs; simp [truncate_stacktrace]
    · simp [truncate_stacktrace, hs, hle]
  · intro hlt
    have hs : s ≠ [] := by
      intro h
      subst h
      simp at hlt
    have hnle : ¬ s.length ≤ maxL := by omega
    have htz : tailL ≠ 0 := by omega
    simp [truncate_stacktrace, hs, hnle, pyTail, htz]

/-- C5 witness: the amended policy evaluated at concrete bounds and inputs. -/
theorem truncate_stacktrace_policy_check :
    truncate_stacktrace 2 1 1 none = [] ∧
    truncate_stacktrace 2 1 1 (some []) = [] ∧
    truncate_stacktrace 2 1 1 (some "ab".toList) = "ab".toList ∧
    truncate_stacktrace 2 1 1 (some "abc".toList) =
      ("abc".toList).take 1 ++ truncMarker ++
        ("abc".toList).drop ("abc".toList.length - 1) :=
  ⟨(truncate_stacktrace_policy 2 1 1 [] (by decide)).1,
   (truncate_stacktrace_policy 2 1 1 [] (by decide)).2.1,
   (truncate_stacktrace_policy 2 1 1 "ab".toList (by decide)).2.2.1 (by decide),
   (truncate_stacktrace_policy 2 1 1 "abc".toList (by decide)).2.2.2 (by decide)⟩

/-- C6: the bound `settings.JSON_ATTR_MAX_LENGTH` read by
`_truncate_json_attribute` is not among the declared `Settings` fields, so
the Python attribute access fails on every non-falsy input; the truncation
policy itself, modelled with the 2000-character bound the repository tests
specify, behaves as claimed. -/
theorem json_attr_bound_missing :
    ¬ ("JSON_ATTR_MAX_LENGTH".toList ∈ settingsFieldNames) ∧
    truncate_json_attribute 2000 none = none ∧
    truncate_json_attribute 2000 (some []) = none ∧
    truncate_json_attribute 2000 (some (List.replicate 2000 'x')) =
      some (List.replicate 2000 'x') ∧
    truncate_json_attribute 2000 (some (List.replicate 2001 'x')) =
      some (List.replicate 2000 'x' ++ jsonMarker) := by
  have hrep : ∀ n : Nat, 0 < n → List.replicate n 'x' ≠ ([] : Str) := by
    intro n hn h
    have hlen := congrArg List.length h
    rw [List.length_replicate] at hlen
    simp only [List.length_nil] at hlen
    omega
  refine ⟨by decide, rfl, by simp [truncate_json_attribute], ?_, ?_⟩
  · simp only [truncate_json_attribute]
    rw [if_neg (hrep 2000 (by omega)), if_pos]
    rw [List.length_replicate]
  · simp only [truncate_json_attribute]
    have hlen : ¬ (List.replicate 2001 'x').length ≤ 2000 := by
      rw [List.length_replicate]; omega
    rw [if_neg (hrep 2001 (by omega)), if_neg hlen, List.take_replicate]
    norm_num

/-- C10: every falsy optional contextual field of a fetched row is
normalized to `None` when building the record: an HTTP status of 0 or an
absent one becomes `None` while any non-zero status is kept as an integer,
and empty strings in the HTTP method, URL, database system, database
operation and related events all become `None`, so a zero status or an
empty string is indistinguishable from an absent value at the interface. -/
theorem transformRow_falsy_normalization (jsonMax : Nat) (row : SourceRow)
    (k : Int) :
    ((row.http_status = none ∨ row.http_status = some 0) →
        (transformRow jsonMax row).http_status = none) ∧
    (row.http_status = some k → k ≠ 0 →
        (transformRow jsonMax row).http_status = some k) ∧
    (transformRow jsonMax { row with http_status := some 0 } =
        transformRow jsonMax { row with http_status := none }) ∧
    (transformRow jsonMax { row with http_method := some [] } =
        transformRow jsonMax { row with http_method := none }) ∧
    (transformRow jsonMax { row with http_url := some [] } =
        transformRow jsonMax { row with http_url := none }) ∧
    (transformRow jsonMax { row with db_system := some [] } =
        transformRow jsonMax { row with db_system := none }) ∧
    (transformRow jsonMax { row with db_operation := some [] } =
        transformRow jsonMax { row with db_operation := none }) ∧
    (transformRow jsonMax { row with related_events := some [] } =
        transformRow jsonMax { row with related_events := none }) := by
  refine ⟨?_, ?_, ?_, ?_, ?_, ?_, ?_, ?_⟩
  · rintro (h | h) <;> simp [transformRow, statusOrNone, h]
  · intro h hk
    simp [transformRow, statusOrNone, h, hk]
  all_goals simp [transformRow, statusOrNone, strOrNone]

/-- C10 witness: the normalization evaluated at concrete rows. -/
theorem transformRow_falsy_normalization_check :
    (transformRow 2000 sampleRow0).http_status = none ∧
    (transformRow 2000 sampleRow7).http_status = some 7 ∧
    transformRow 2000 { sampleRowN with http_method := some [] } =
      transformRow 2000 { sampleRowN with http_method := none } :=
  ⟨(transformRow_falsy_normalization 2000 sampleRow0 7).1 (Or.inr rfl),
   (transformRow_falsy_normalization 2000 sampleRow7 7).2.1 rfl (by decide),
   (transformRow_falsy_normalization 2000 sampleRowN 7).2.2.2.1⟩

/-- C2: the delimiter choice is deterministic, the pipe is selected exactly
when the comma count of the space-joined value sample strictly exceeds
twice the pipe count, and at exact equality the comma is selected. -/
theorem delimiter_choice_rule (batch : List Record) :
    (chooseDelimiter batch = '|' ↔
        countChar ',' (sample_text batch) >
          2 * countChar '|' (sample_text batch)) ∧
    (countChar ',' (sample_text batch) =
        2 * countChar '|' (sample_text batch) →
      chooseDelimiter batch = ',') := by
  unfold chooseDelimiter
  constructor
  · by_cases h : countChar ',' (sample_text batch) >
        countChar '|' (sample_text batch) * 2
    · simp only [if_pos h]
      constructor
      · intro _; omega
      · intro _; trivial
    · simp only [if_neg h]
      constructor
      · intro hc
        exact absurd hc (by decide)
      · intro hgt
        omega
  · intro hEq
    have h : ¬ countChar ',' (sample_text batch) >
        countChar '|' (sample_text batch) * 2 := by omega
    simp only [if_neg h]

/-- C2 witness: a sample with two commas and one pipe sits exactly at the
2:1 boundary and selects the comma; three commas and one pipe select the
pipe. -/
theorem delimiter_choice_rule_check :
    chooseDelimiter [[("k".toList, PyVal.vStr "a,b,c|d".toList)]] = ',' ∧
    chooseDelimiter [[("k".toList, PyVal.vStr "a,b,c,d|e".toList)]] = '|' :=
  ⟨(delimiter_choice_rule [[("k".toList, PyVal.vStr "a,b,c|d".toList)]]).2
      (by decide),
   (delimiter_choice_rule [[("k".toList, PyVal.vStr "a,b,c,d|e".toList)]]).1.mpr
      (by decide)⟩

theorem runAttempts_cons_success {A : Type} (maxR : Nat) (src : Nat → Outcome A)
    (i : Nat) (rest : List Nat) (recs : List A) (h : src i = .success recs) :
    runAttempts maxR src (i :: rest) =
      { records := recs, attempts := 1, waits := [] } := by
  simp [runAttempts, h]

theorem runAttempts_cons_fatal {A : Type} (maxR : Nat) (src : Nat → Outcome A)
    (i : Nat) (rest : List Nat) (h : src i = .fatal) :
    runAttempts maxR src (i :: rest) =
      { records := [], attempts := 1, waits := [] } := by
  simp [runAttempts, h]

theorem runAttempts_cons_retry_more {A : Type} (maxR : Nat) (src : Nat → Outcome A)
    (i : Nat) (rest : List Nat) (h : src i = .retryable) (hi : i < maxR - 1) :
    runAttempts maxR src (i :: rest) =
      { records := (runAttempts maxR src rest).records,
        attempts := (runAttempts maxR src rest).attempts + 1,
        waits := 2 ^ i :: (runAttempts maxR src rest).waits } := by
  simp [runAttempts, h, hi]

theorem runAttempts_cons_retry_last {A : Type} (maxR : Nat) (src : Nat → Outcome A)
    (i : Nat) (rest : List Nat) (h : src i = .retryable) (hi : ¬ i < maxR - 1) :
    runAttempts maxR src (i :: rest) =
      { records := (runAttempts maxR src rest).records,
        attempts := (runAttempts maxR src rest).attempts + 1,
        waits := (runAttempts maxR src rest).waits } := by
  simp [runAttempts, h, hi]

theorem runAttempts_attempts_pos {A : Type} (maxR : Nat) (src : Nat → Outcome A)
    (i : Nat) (rest : List Nat) :
    1 ≤ (runAttempts maxR src (i :: rest)).attempts := by
  cases h : src i with
  | success recs => rw [runAttempts_cons_success maxR src i rest recs h]
  | retryable =>
    by_cases hi : i < maxR - 1
    · rw [runAttempts_cons_retry_more maxR src i rest h hi]; exact Nat.le_add_left 1 _
    · rw [runAttempts_cons_retry_last maxR src i rest h hi]; exact Nat.le_add_left 1 _
  | fatal => rw [runAttempts_cons_fatal maxR src i rest h]

theorem fetch_errors_valid {A : Type} (maxR : Nat) (src : Nat → Outcome A)
    (limit tw : Int) (hL : 1 ≤ limit ∧ limit ≤ 1000) (hT : 1 ≤ tw ∧ tw ≤ 10080) :
    fetch_errors maxR src limit tw = .ok (runAttempts maxR src (List.range maxR)) := by
  simp [fetch_errors, hL, hT]

/-- C7: out-of-range `limit` or `time_window_minutes` raises the validation
error at once — uniformly in the data source, which is therefore never
invoked — while in-range parameters (such as the boundary values 1 and
1000) pass validation and the source is invoked at least once. -/
theorem fetch_errors_validation {A : Type} (maxR : Nat) (src : Nat → Outcome A)
    (limit tw : Int) :
    (¬ (1 ≤ limit ∧ limit ≤ 1000) →
        fetch_errors maxR src limit tw = .error (.limitOutOfRange limit)) ∧
    ((1 ≤ limit ∧ limit ≤ 1000) → ¬ (1 ≤ tw ∧ tw ≤ 10080) →
        fetch_errors maxR src limit tw = .error (.timeWindowOutOfRange tw)) ∧
    ((1 ≤ limit ∧ limit ≤ 1000) → (1 ≤ tw ∧ tw ≤ 10080) → 1 ≤ maxR →
        fetch_errors maxR src limit tw =
          .ok (runAttempts maxR src (List.range maxR)) ∧
        1 ≤ (runAttempts maxR src (List.range maxR)).attempts) := by
  refine ⟨?_, ?_, ?_⟩
  · intro h
    simp [fetch_errors, h]
  · intro hL hT
    simp [fetch_errors, hL, hT]
  · intro hL hT hR
    refine ⟨fetch_errors_valid maxR src limit tw hL hT, ?_⟩
    obtain ⟨m, rfl⟩ : ∃ m, maxR = m + 1 := ⟨maxR - 1, by omega⟩
    rw [List.range_eq_range', List.range'_succ]
    exact runAttempts_attempts_pos (m + 1) src 0 (List.range' 1 m)

/-- C7 witness: limits 0 and 1001 are rejected before any source call,
limits 1 and 1000 are accepted and the source is invoked. -/
theorem fetch_errors_validation_check :
    fetch_errors 3 srcThird 0 60 = .error (.limitOutOfRange 0) ∧
    fetch_errors 3 srcThird 1001 60 = .error (.limitOutOfRange 1001) ∧
    fetch_errors 3 srcThird 1 0 = .error (.timeWindowOutOfRange 0) ∧
    (fetch_errors 3 srcThird 1 60 =
        .ok (runAttempts 3 srcThird (List.range 3)) ∧
      1 ≤ (runAttempts 3 srcThird (List.range 3)).attempts) ∧
    (fetch_errors 3 srcThird 1000 60 =
        .ok (runAttempts 3 srcThird (List.range 3)) ∧
      1 ≤ (runAttempts 3 srcThird (List.range 3)).attempts) :=
  ⟨(fetch_errors_validation 3 srcThird 0 60).1 (by omega),
   (fetch_errors_validation 3 srcThird 1001 60).1 (by omega),
   (fetch_errors_validation 3 srcThird 1 0).2.1 (by omega) (by omega),
   (fetch_errors_validation 3 srcThird 1 60).2.2 (by omega) (by omega) (by omega),
   (fetch_errors_validation 3 srcThird 1000 60).2.2 (by omega) (by omega) (by omega)⟩

theorem runAttempts_all_retryable {A : Type} (src : Nat → Outcome A)
    (maxR : Nat) (hsrc : ∀ i, src i = .retryable) :
    ∀ n a, a + n = maxR →
      runAttempts maxR src (List.range' a n) =
        { records := [], attempts := n,
          waits := (List.range' a (n - 1)).map (fun i => 2 ^ i) } := by
  intro n
  induction n with
  | zero => intro a _; rfl
  | succ k ih =>
    intro a hsum
    rw [List.range'_succ]
    cases k with
    | zero =>
      have hi : ¬ a < maxR - 1 := by omega
      rw [runAttempts_cons_retry_last maxR src a _ (hsrc a) hi]
      rw [ih (a + 1) (by omega)]
      rfl
    | succ j =>
      have hi : a < maxR - 1 := by omega
      rw [runAttempts_cons_retry_more maxR src a _ (hsrc a) hi]
      rw [ih (a + 1) (by omega)]
      simp only [Nat.add_sub_cancel, Nat.succ_sub_one]
      rw [List.range'_succ]
      rfl

/-- C8: under valid parameters, a source failing retryably twice then
succeeding yields the successful records after exactly 3 attempts with
backoff waits of 1 and 2 time units; a source that always fails retryably
is attempted exactly `maxR` times with waits `2 ^ i` between attempts and
returns an empty list without raising; a fatal first failure returns an
empty list after a single attempt with no waits. -/
theorem fetch_errors_retry_policy {A : Type} (src : Nat → Outcome A)
    (recs : List A) (maxR : Nat) (limit tw : Int)
    (hL : 1 ≤ limit ∧ limit ≤ 1000) (hT : 1 ≤ tw ∧ tw ≤ 10080) :
    (src 0 = .retryable → src 1 = .retryable → src 2 = .success recs →
        fetch_errors 3 src limit tw =
          .ok { records := recs, attempts := 3, waits := [1, 2] }) ∧
    ((∀ i, src i = .retryable) →
        fetch_errors maxR src limit tw =
          .ok { records := [], attempts := maxR,
                waits := (List.range (maxR - 1)).map (fun i => 2 ^ i) }) ∧
    (src 0 = .fatal → 1 ≤ maxR →
        fetch_errors maxR src limit tw =
          .ok { records := [], attempts := 1, waits := [] }) := by
  refine ⟨?_, ?_, ?_⟩
  · intro h0 h1 h2
    rw [fetch_errors_valid 3 src limit tw hL hT]
    have hr : List.range 3 = [0, 1, 2] := rfl
    rw [hr]
    rw [runAttempts_cons_retry_more 3 src 0 _ h0 (by omega)]
    rw [runAttempts_cons_retry_more 3 src 1 _ h1 (by omega)]
    rw [runAttempts_cons_success 3 src 2 _ recs h2]
    rfl
  · intro hsrc
    rw [fetch_errors_valid maxR src limit tw hL hT]
    rw [List.range_eq_range' maxR,
      runAttempts_all_retryable src maxR hsrc maxR 0 (by omega),
      List.range_eq_range' (maxR - 1)]
  · intro h0 hR
    rw [fetch_errors_valid maxR src limit tw hL hT]
    obtain ⟨m, rfl⟩ : ∃ m, maxR = m + 1 := ⟨maxR - 1, by omega⟩
    rw [List.range_eq_range', List.range'_succ,
      runAttempts_cons_fatal (m + 1) src 0 _ h0]

/-- C8 witness: the three retry behaviours at concrete sources with
`MAX_RETRIES = 3` and valid parameters. -/
theorem fetch_errors_retry_policy_check :
    fetch_errors 3 srcThird 10 60 =
      .ok { records := [42], attempts := 3, waits := [1, 2] } ∧
    fetch_errors 3 srcAlways 10 60 =
      .ok { records := [], attempts := 3,
            waits := (List.range 2).map (fun i => 2 ^ i) } ∧
    fetch_errors 3 srcFatalNow 10 60 =
      .ok { records := [], attempts := 1, waits := [] } :=
  ⟨(fetch_errors_retry_policy srcThird [42] 3 10 60 (by omega) (by omega)).1
      rfl rfl rfl,
   (fetch_errors_retry_policy srcAlways [] 3 10 60 (by omega) (by omega)).2.1
      (fun _ => rfl),
   (fetch_errors_retry_policy srcFatalNow [] 3 10 60 (by omega) (by omega)).2.2
      rfl (by omega)⟩

theorem bool_eq_of_iff {a b : Bool} (h : a = true ↔ b = true) : a = b := by
  cases a <;> cases b <;> simp_all

theorem hasChar_iff (c : Char) (l : Str) : hasChar c l = true ↔ c ∈ l := by
  induction l with
  | nil => simp [hasChar]
  | cons d rest ih =>
    show (d == c || hasChar c rest) = true ↔ c ∈ d :: rest
    rw [Bool.or_eq_true, beq_iff_eq, ih, List.mem_cons]
    exact or_congr eq_comm Iff.rfl

theorem hasChar_append (c : Char) (a b : Str) :
    hasChar c (a ++ b) = (hasChar c a || hasChar c b) := by
  induction a with
  | nil => simp [hasChar]
  | cons d rest ih => simp [hasChar, ih, Bool.or_assoc]

theorem escChar_ne_nil (c : Char) : escChar c ≠ [] := by
  by_cases hb : c = '\\'
  · simp [escChar, hb]
  · by_cases hq : c = '"'
    · simp [escChar, hb, hq]
    · by_cases hn : c = '\n'
      · simp [escChar, hb, hq, hn]
      · by_cases hr : c = '\r'
        · simp [escChar, hb, hq, hn, hr]
        · by_cases ht : c = '\t'
          · simp [escChar, hb, hq, hn, hr, ht]
          · simp [escChar, hb, hq, hn, hr, ht]

theorem escF_append (a b : Str) : escF (a ++ b) = escF a ++ escF b := by
  induction a with
  | nil => rfl
  | cons c rest ih => simp [escF, ih]

theorem mem_escChar (t c : Char) (h1 : t ≠ '\\') (h3 : t ≠ '\n') (h4 : t ≠ '\r')
    (h5 : t ≠ '\t') (h6 : t ≠ 'n') (h7 : t ≠ 'r') (h8 : t ≠ 't') :
    t ∈ escChar c ↔ t = c := by
  by_cases hb : c = '\\'
  · subst hb; simp [escChar]
  · by_cases hq : c = '"'
    · subst hq; simp [escChar, h1]
    · by_cases hn : c = '\n'
      · subst hn; simp [escChar, h1, h6, h3]
      · by_cases hr : c = '\r'
        · subst hr; simp [escChar, h1, h7, h4]
        · by_cases ht : c = '\t'
          · subst ht; simp [escChar, h1, h8, h5]
          · simp [escChar, hb, hq, hn, hr, ht]

theorem mem_escF (t : Char) (s : Str) (h1 : t ≠ '\\') (h3 : t ≠ '\n')
    (h4 : t ≠ '\r') (h5 : t ≠ '\t') (h6 : t ≠ 'n') (h7 : t ≠ 'r') (h8 : t ≠ 't') :
    t ∈ escF s ↔ t ∈ s := by
  induction s with
  | nil => simp [escF]
  | cons c rest ih =>
    show t ∈ escChar c ++ escF rest ↔ _
    rw [List.mem_append, ih, mem_escChar t c h1 h3 h4 h5 h6 h7 h8]
    simp

theorem hasChar_escF (t : Char) (s : Str) (h1 : t ≠ '\\') (h3 : t ≠ '\n')
    (h4 : t ≠ '\r') (h5 : t ≠ '\t') (h6 : t ≠ 'n') (h7 : t ≠ 'r') (h8 : t ≠ 't') :
    hasChar t (escF s) = hasChar t s := by
  refine bool_eq_of_iff ?_
  rw [hasChar_iff, hasChar_iff]
  exact mem_escF t s h1 h3 h4 h5 h6 h7 h8

theorem startsWith1_append (c : Char) (a b : Str) (ha : a ≠ []) :
    startsWith1 c (a ++ b) = startsWith1 c a := by
  cases a with
  | nil => exact absurd rfl ha
  | cons x xs => rfl

theorem startsWith1_escChar (c : Char) : startsWith1 ' ' (escChar c) = (c == ' ') := by
  by_cases hb : c = '\\'
  · subst hb; simp [escChar, startsWith1]
  · by_cases hq : c = '"'
    · subst hq; simp [escChar, startsWith1]
    · by_cases hn : c = '\n'
      · subst hn; simp [escChar, startsWith1]
      · by_cases hr : c = '\r'
        · subst hr; simp [escChar, startsWith1]
        · by_cases ht : c = '\t'
          · subst ht; simp [escChar, startsWith1]
          · simp [escChar, hb, hq, hn, hr, ht, startsWith1]

theorem startsWith1_escF (s : Str) : startsWith1 ' ' (escF s) = startsWith1 ' ' s := by
  cases s with
  | nil => rfl
  | cons c rest =>
    show startsWith1 ' ' (escChar c ++ escF rest) = _
    rw [startsWith1_append ' ' (escChar c) (escF rest) (escChar_ne_nil c),
      startsWith1_escChar c]
    rfl

theorem getLast?_some_of_ne_nil (b : Str) (hb : b ≠ []) :
    ∃ c, b.getLast? = some c := by
  induction b with
  | nil => exact absurd rfl hb
  | cons x xs ih =>
    cases xs with
    | nil => exact ⟨x, rfl⟩
    | cons y ys =>
      obtain ⟨c, hc⟩ := ih (by simp)
      exact ⟨c, by rw [List.getLast?_cons_cons]; exact hc⟩

theorem endsWith1_append (c : Char) (a b : Str) (hb : b ≠ []) :
    endsWith1 c (a ++ b) = endsWith1 c b := by
  obtain ⟨d, hd⟩ := getLast?_some_of_ne_nil b hb
  unfold endsWith1
  rw [List.getLast?_append, hd]
  rfl

theorem endsWith1_escChar (c : Char) : endsWith1 ' ' (escChar c) = (c == ' ') := by
  by_cases hb : c = '\\'
  · subst hb; simp [escChar, endsWith1]
  · by_cases hq : c = '"'
    · subst hq; simp [escChar, endsWith1]
    · by_cases hn : c = '\n'
      · subst hn; simp [escChar, endsWith1]
      · by_cases hr : c = '\r'
        · subst hr; simp [escChar, endsWith1]
        · by_cases ht : c = '\t'
          · subst ht; simp [escChar, endsWith1]
          · simp [escChar, hb, hq, hn, hr, ht, endsWith1]

theorem endsWith1_escF (s : Str) : endsWith1 ' ' (escF s) = endsWith1 ' ' s := by
  induction s using List.reverseRecOn with
  | nil => rfl
  | append_singleton a c _ =>
    have h1 : escF [c] = escChar c := by
      show escChar c ++ escF [] = _
      simp [escF]
    rw [escF_append, h1]
    rw [endsWith1_append ' ' (escF a) (escChar c) (escChar_ne_nil c)]
    rw [endsWith1_append ' ' a [c] (by simp)]
    rw [endsWith1_escChar c]
    rfl

theorem escF_eq_nil_iff (s : Str) : escF s = [] ↔ s = [] := by
  cases s with
  | nil => simp [escF]
  | cons c rest =>
    simp only [escF]
    constructor
    · intro h
      exact absurd (List.append_eq_nil.mp h).1 (escChar_ne_nil c)
    · intro h
      exact absurd h (by simp)

theorem isEmpty_escF (s : Str) : (escF s).isEmpty = s.isEmpty := by
  refine bool_eq_of_iff ?_
  rw [List.isEmpty_iff, List.isEmpty_iff]
  exact escF_eq_nil_iff s

theorem needs_quotes_escF (delim : Char) (s : Str)
    (hd : delim = ',' ∨ delim = '|') :
    needs_quotes delim (escF s) = quoteCondOrig delim s := by
  have hdc : hasChar delim (escF s) = hasChar delim s := by
    rcases hd with h | h <;> subst h <;>
      exact hasChar_escF _ s (by decide) (by decide) (by decide) (by decide)
        (by decide) (by decide) (by decide)
  unfold needs_quotes quoteCondOrig
  rw [hdc, startsWith1_escF, endsWith1_escF, isEmpty_escF]
  have hstruct : structuralChars.any (fun c => hasChar c (escF s)) =
      structuralChars.any (fun c => hasChar c s) := by
    simp only [structuralChars, List.any_cons, List.any_nil]
    rw [hasChar_escF '{' s (by decide) (by decide) (by decide) (by decide)
        (by decide) (by decide) (by decide),
      hasChar_escF '}' s (by decide) (by decide) (by decide) (by decide)
        (by decide) (by decide) (by decide),
      hasChar_escF ':' s (by decide) (by decide) (by decide) (by decide)
        (by decide) (by decide) (by decide),
      hasChar_escF '[' s (by decide) (by decide) (by decide) (by decide)
        (by decide) (by decide) (by decide),
      hasChar_escF ']' s (by decide) (by decide) (by decide) (by decide)
        (by decide) (by decide) (by decide)]
  rw [hstruct]

/-- C1: the escaped value is wrapped in double quotes exactly when the
original value contains the active delimiter, starts or ends with a space,
is empty, or contains a structural character; escaped newlines or quotes
alone never trigger quoting, so in particular a value whose only special
content is a newline is emitted unquoted. -/
theorem escape_quoting (delim : Char) (s : Str) (hd : delim = ',' ∨ delim = '|') :
    escape_string delim (.vStr s) =
      if quoteCondOrig delim s then '"' :: (pyEscape s ++ ['"']) else pyEscape s := by
  show (if needs_quotes delim (pyEscape s) then '"' :: (pyEscape s ++ ['"'])
        else pyEscape s) = _
  rw [pyEscape_eq_escF, needs_quotes_escF delim s hd]

/-- C1 witness: a value whose only special content is a newline stays
unquoted, while a delimiter or a leading space forces quotes. -/
theorem escape_quoting_check :
    escape_string ',' (PyVal.vStr "a\nb".toList) = "a\\nb".toList ∧
    quoteCondOrig ',' "a\nb".toList = false ∧
    escape_string ',' (PyVal.vStr "a,b".toList) =
      '"' :: (pyEscape "a,b".toList ++ ['"']) ∧
    escape_string ',' (PyVal.vStr " a".toList) =
      '"' :: (pyEscape " a".toList ++ ['"']) := by
  refine ⟨?_, by decide, ?_, ?_⟩
  · rw [escape_quoting ',' "a\nb".toList (Or.inl rfl)]; decide
  · rw [escape_quoting ',' "a,b".toList (Or.inl rfl)]; decide
  · rw [escape_quoting ',' " a".toList (Or.inl rfl)]; decide

theorem countChar_append (c : Char) (a b : Str) :
    countChar c (a ++ b) = countChar c a + countChar c b := by
  induction a with
  | nil => simp [countChar]
  | cons d rest ih => simp [countChar, ih]; omega

theorem countChar_eq_zero (c : Char) (s : Str) (h : hasChar c s = false) :
    countChar c s = 0 := by
  induction s with
  | nil => rfl
  | cons d rest ih =>
    simp only [hasChar, Bool.or_eq_false_iff, beq_eq_false_iff_ne, ne_eq] at h
    simp [countChar, h.1, ih h.2]

theorem joinSep_count (sep : Char) :
    ∀ parts : List Str, (∀ p ∈ parts, hasChar sep p = false) →
      countChar sep (joinSep sep parts) = parts.length - 1 := by
  intro parts
  induction parts with
  | nil => intro _; rfl
  | cons s rest ih =>
    intro hfree
    cases rest with
    | nil =>
      show countChar sep s = 0
      exact countChar_eq_zero sep s (hfree s (by simp))
    | cons t rest2 =>
      show countChar sep (s ++ sep :: joinSep sep (t :: rest2)) = _
      rw [countChar_append]
      rw [countChar_eq_zero sep s (hfree s (by simp))]
      have h2 : countChar sep (joinSep sep (t :: rest2)) = (t :: rest2).length - 1 :=
        ih (fun p hp => hfree p (by simp [hp]))
      simp only [countChar]
      rw [h2]
      simp
      omega

theorem hasChar_natStrGo (t : Char) (hd : ∀ d, d < 10 → digitChar d ≠ t) :
    ∀ fuel n, hasChar t (natStrGo fuel n) = false := by
  intro fuel
  induction fuel with
  | zero => intro n; rfl
  | succ f ih =>
    intro n
    by_cases hn : n = 0
    · simp [natStrGo, hn, hasChar]
    · have hlt : n % 10 < 10 := Nat.mod_lt _ (by omega)
      have hne := hd (n % 10) hlt
      simp [natStrGo, hn, hasChar_append, ih, hasChar, hne]

theorem hasChar_natStr (t : Char) (hd : ∀ d, d < 10 → digitChar d ≠ t) (n : Nat) :
    hasChar t (natStr n) = false := by
  unfold natStr
  by_cases hn : n = 0
  · have h0 := hd 0 (by omega)
    have : digitChar 0 = '0' := by decide
    rw [this] at h0
    simp [hn, hasChar, h0]
  · simp only [hn, if_false]
    exact hasChar_natStrGo t hd n n

theorem hasChar_nl_escChar (c : Char) : hasChar '\n' (escChar c) = false := by
  by_cases hb : c = '\\'
  · simp [escChar, hb, hasChar]
  · by_cases hq : c = '"'
    · simp [escChar, hb, hq, hasChar]
    · by_cases hn : c = '\n'
      · simp [escChar, hb, hq, hn, hasChar]
      · by_cases hr : c = '\r'
        · simp [escChar, hb, hq, hn, hr, hasChar]
        · by_cases ht : c = '\t'
          · simp [escChar, hb, hq, hn, hr, ht, hasChar]
          · simp [escChar, hb, hq, hn, hr, ht, hasChar, hn]

theorem hasChar_nl_escF (s : Str) : hasChar '\n' (escF s) = false := by
  induction s with
  | nil => rfl
  | cons c rest ih =>
    show hasChar '\n' (escChar c ++ escF rest) = false
    rw [hasChar_append, hasChar_nl_escChar c, ih]
    rfl

theorem escape_nl_free (delim : Char) (v : PyVal) :
    hasChar '\n' (escape_string delim v) = false := by
  cases v with
  | vNone =>
    show hasChar '\n' ("null".toList) = false
    decide
  | vStr s =>
    have hx : hasChar '\n' (pyEscape s) = false := by
      rw [pyEscape_eq_escF]; exact hasChar_nl_escF s
    by_cases hq : needs_quotes delim (pyEscape s)
    · simp [escape_string, pyStr, hq, hasChar, hasChar_append, hx]
    · simp [escape_string, pyStr, hq, hx]
  | vInt n =>
    have hx : hasChar '\n' (pyEscape (intStr n)) = false := by
      rw [pyEscape_eq_escF]; exact hasChar_nl_escF (intStr n)
    by_cases hq : needs_quotes delim (pyEscape (intStr n))
    · simp [escape_string, pyStr, hq, hasChar, hasChar_append, hx]
    · simp [escape_string, pyStr, hq, hx]

theorem chooseDelimiter_cases (batch : List Record) :
    chooseDelimiter batch = ',' ∨ chooseDelimiter batch = '|' := by
  unfold chooseDelimiter
  split
  · exact Or.inr rfl
  · exact Or.inl rfl

theorem hasChar_joinSep_free (t sep : Char) (ht : t ≠ sep) :
    ∀ parts : List Str, (∀ p ∈ parts, hasChar t p = false) →
      hasChar t (joinSep sep parts) = false := by
  intro parts
  induction parts with
  | nil => intro _; rfl
  | cons s rest ih =>
    intro hfree
    cases rest with
    | nil => exact hfree s (by simp)
    | cons u rest2 =>
      show hasChar t (s ++ sep :: joinSep sep (u :: rest2)) = false
      rw [hasChar_append, hfree s (by simp)]
      have h2 : hasChar t (joinSep sep (u :: rest2)) = false :=
        ih (fun p hp => hfree p (by simp [hp]))
      have hne : (sep == t) = false := by
        simp [beq_eq_false_iff_ne]
        exact fun h => ht h.symm
      simp [hasChar, hne, h2]

theorem rowLine_nl_free (delim : Char) (keys : List Str) (r : Record)
    (hdelim : delim ≠ '\n') :
    hasChar '\n' (rowLine delim keys r) = false := by
  unfold rowLine
  refine hasChar_joinSep_free '\n' delim (fun h => hdelim h.symm) _ ?_
  intro p hp
  obtain ⟨k, _, rfl⟩ := List.mem_map.mp hp
  exact escape_nl_free delim _

theorem header_nl_free (name marker : Str) (n : Nat) (keys : List Str)
    (hname : hasChar '\n' name = false)
    (hkeys : ∀ k ∈ keys, hasChar '\n' k = false)
    (hm : hasChar '\n' marker = false) :
    hasChar '\n' (header_line name n marker keys) = false := by
  have h1 : hasChar '\n' (natStr n) = false :=
    hasChar_natStr '\n' (by decide) n
  have h2 : hasChar '\n' (joinSep ',' keys) = false :=
    hasChar_joinSep_free '\n' ',' (by decide) keys hkeys
  unfold header_line
  simp [hasChar_append, hasChar, hname, hm, h1, h2]

theorem format_tabular_nl (name : Str) (batch : List Record)
    (hname : hasChar '\n' name = false)
    (hkeys : ∀ k ∈ (batch.headD []).map Prod.fst, hasChar '\n' k = false) :
    countChar '\n' (format_tabular batch name) = batch.length := by
  cases batch with
  | nil =>
    show countChar '\n' (name ++ ['[', '0', ']', ':']) = 0
    rw [countChar_append, countChar_eq_zero '\n' name hname]
    rfl
  | cons r0 rest =>
    have hdelim : chooseDelimiter (r0 :: rest) ≠ '\n' := by
      rcases chooseDelimiter_cases (r0 :: rest) with h | h <;> rw [h] <;> decide
    have hm : hasChar '\n'
        (if chooseDelimiter (r0 :: rest) = '|' then ['|'] else ([] : Str)) = false := by
      split <;> rfl
    have hparts : ∀ p ∈ header_line name (r0 :: rest).length
        (if chooseDelimiter (r0 :: rest) = '|' then ['|'] else [])
        (r0.map Prod.fst) ::
          (r0 :: rest).map (rowLine (chooseDelimiter (r0 :: rest)) (r0.map Prod.fst)),
        hasChar '\n' p = false := by
      intro p hp
      rcases List.mem_cons.mp hp with h | h
      · subst h
        exact header_nl_free name _ _ _ hname (fun k hk => hkeys k hk) hm
      · obtain ⟨r, _, rfl⟩ := List.mem_map.mp h
        exact rowLine_nl_free _ _ r hdelim
    show countChar '\n' (joinSep '\n' _) = _
    rw [joinSep_count '\n' _ hparts]
    simp

theorem format_tabular_shape (name : Str) (batch : List Record) :
    ∃ c, format_tabular batch name = (name ++ '[' :: natStr batch.length) ++ c := by
  cases batch with
  | nil =>
    refine ⟨[']', ':'], ?_⟩
    show name ++ ['[', '0', ']', ':'] = _
    simp [natStr]
  | cons r0 rest =>
    refine ⟨((if chooseDelimiter (r0 :: rest) = '|' then ['|'] else []) ++
        ']' :: '{' :: (joinSep ',' (r0.map Prod.fst) ++ ['}', ':'])) ++
        '\n' :: joinSep '\n'
          ((r0 :: rest).map (rowLine (chooseDelimiter (r0 :: rest)) (r0.map Prod.fst))), ?_⟩
    show joinSep '\n' (header_line name (r0 :: rest).length _ _ :: _) = _
    have hjoin : ∀ (h : Str) (t : Str) (ts : List Str),
        joinSep '\n' (h :: t :: ts) = h ++ '\n' :: joinSep '\n' (t :: ts) :=
      fun h t ts => rfl
    cases hmap : (r0 :: rest).map (rowLine (chooseDelimiter (r0 :: rest)) (r0.map Prod.fst)) with
    | nil => exact absurd hmap (by simp)
    | cons t ts =>
      rw [hjoin]
      unfold header_line
      simp [List.append_assoc]

/-- C3: for a batch of `n` records the encoder emits exactly `n + 1`
newline-separated lines (header plus one row per record), the count
embedded in the header equals `n`, and the empty batch yields exactly the
single line `name[0]:` with no trailing newline. -/
theorem format_tabular_lines (name : Str) (batch : List Record)
    (hname : hasChar '\n' name = false)
    (hkeys : ∀ k ∈ (batch.headD []).map Prod.fst, hasChar '\n' k = false) :
    lineCount (format_tabular batch name) = batch.length + 1 ∧
    (format_tabular batch name).take
        (name.length + 1 + (natStr batch.length).length) =
      name ++ '[' :: natStr batch.length ∧
    format_tabular [] name = name ++ ['[', '0', ']', ':'] := by
  refine ⟨?_, ?_, rfl⟩
  · unfold lineCount
    rw [format_tabular_nl name batch hname hkeys]
  · obtain ⟨c, hc⟩ := format_tabular_shape name batch
    rw [hc]
    have hlen : (name ++ '[' :: natStr batch.length).length =
        name.length + 1 + (natStr batch.length).length := by
      simp [List.length_append]
      omega
    rw [← hlen, List.take_left]

/-- C3 witness: a two-record batch encodes to three lines whose header
starts with the count 2, and the empty batch encodes to `errors[0]:`. -/
theorem format_tabular_lines_check :
    lineCount (format_tabular demoBatch "errors".toList) = 3 ∧
    (format_tabular demoBatch "errors".toList).take
        ("errors".toList.length + 1 + (natStr demoBatch.length).length) =
      "errors".toList ++ '[' :: natStr demoBatch.length ∧
    format_tabular [] "errors".toList = "errors".toList ++ ['[', '0', ']', ':'] :=
  format_tabular_lines "errors".toList demoBatch (by decide) (by decide)

theorem endRun_append (a b : Str) : ∀ p, endRun p (a ++ b) = endRun (endRun p a) b := by
  induction a with
  | nil => intro p; rfl
  | cons c rest ih =>
    intro p
    by_cases hc : c = '\\'
    · show endRun p (c :: (rest ++ b)) = _
      rw [show endRun p (c :: (rest ++ b)) = endRun (p + 1) (rest ++ b) by
        simp [endRun, hc]]
      rw [show endRun p (c :: rest) = endRun (p + 1) rest by simp [endRun, hc]]
      exact ih (p + 1)
    · show endRun p (c :: (rest ++ b)) = _
      rw [show endRun p (c :: (rest ++ b)) = endRun 0 (rest ++ b) by
        simp [endRun, hc]]
      rw [show endRun p (c :: rest) = endRun 0 rest by simp [endRun, hc]]
      exact ih 0

theorem qOk_append (a b : Str) : ∀ p, qOk p (a ++ b) = (qOk p a && qOk (endRun p a) b) := by
  induction a with
  | nil => intro p; rfl
  | cons c rest ih =>
    intro p
    by_cases hb : c = '\\'
    · show qOk p (c :: (rest ++ b)) = _
      rw [show qOk p (c :: (rest ++ b)) = qOk (p + 1) (rest ++ b) by simp [qOk, hb]]
      rw [show qOk p (c :: rest) = qOk (p + 1) rest by simp [qOk, hb]]
      rw [show endRun p (c :: rest) = endRun (p + 1) rest by simp [endRun, hb]]
      exact ih (p + 1)
    · by_cases hq : c = '"'
      · show qOk p (c :: (rest ++ b)) = _
        rw [show qOk p (c :: (rest ++ b)) = ((p % 2 == 1) && qOk 0 (rest ++ b)) by
          simp [qOk, hb, hq]]
        rw [show qOk p (c :: rest) = ((p % 2 == 1) && qOk 0 rest) by
          simp [qOk, hb, hq]]
        rw [show endRun p (c :: rest) = endRun 0 rest by simp [endRun, hb]]
        rw [ih 0, Bool.and_assoc]
      · show qOk p (c :: (rest ++ b)) = _
        rw [show qOk p (c :: (rest ++ b)) = qOk 0 (rest ++ b) by simp [qOk, hb, hq]]
        rw [show qOk p (c :: rest) = qOk 0 rest by simp [qOk, hb, hq]]
        rw [show endRun p (c :: rest) = endRun 0 rest by simp [endRun, hb]]
        exact ih 0

theorem escF_qOk (s : Str) :
    ∀ p, p % 2 = 0 → qOk p (escF s) = true ∧ endRun p (escF s) % 2 = 0 := by
  induction s with
  | nil =>
    intro p hp
    exact ⟨rfl, hp⟩
  | cons c rest ih =>
    intro p hp
    by_cases hb : c = '\\'
    · subst hb
      have h2 : (p + 2) % 2 = 0 := by omega
      constructor
      · show qOk p ('\\' :: '\\' :: escF rest) = true
        rw [show qOk p ('\\' :: '\\' :: escF rest) = qOk (p + 1 + 1) (escF rest) by
          simp [qOk]]
        exact (ih (p + 1 + 1) (by omega)).1
      · show endRun p ('\\' :: '\\' :: escF rest) % 2 = 0
        rw [show endRun p ('\\' :: '\\' :: escF rest) = endRun (p + 1 + 1) (escF rest) by
          simp [endRun]]
        exact (ih (p + 1 + 1) (by omega)).2
    · by_cases hq : c = '"'
      · subst hq
        constructor
        · show qOk p ('\\' :: '"' :: escF rest) = true
          rw [show qOk p ('\\' :: '"' :: escF rest) =
              (((p + 1) % 2 == 1) && qOk 0 (escF rest)) by simp [qOk]]
          have : (p + 1) % 2 = 1 := by omega
          rw [this]
          simp [(ih 0 (by omega)).1]
        · show endRun p ('\\' :: '"' :: escF rest) % 2 = 0
          rw [show endRun p ('\\' :: '"' :: escF rest) = endRun 0 (escF rest) by
            simp [endRun]]
          exact (ih 0 (by omega)).2
      · by_cases hn : c = '\n'
        · subst hn
          refine ⟨?_, ?_⟩
          · show qOk p ('\\' :: 'n' :: escF rest) = true
            rw [show qOk p ('\\' :: 'n' :: escF rest) = qOk 0 (escF rest) by
              simp [qOk]]
            exact (ih 0 (by omega)).1
          · show endRun p ('\\' :: 'n' :: escF rest) % 2 = 0
            rw [show endRun p ('\\' :: 'n' :: escF rest) = endRun 0 (escF rest) by
              simp [endRun]]
            exact (ih 0 (by omega)).2
        · by_cases hr : c = '\r'
          · subst hr
            refine ⟨?_, ?_⟩
            · show qOk p ('\\' :: 'r' :: escF rest) = true
              rw [show qOk p ('\\' :: 'r' :: escF rest) = qOk 0 (escF rest) by
                simp [qOk]]
              exact (ih 0 (by omega)).1
            · show endRun p ('\\' :: 'r' :: escF rest) % 2 = 0
              rw [show endRun p ('\\' :: 'r' :: escF rest) = endRun 0 (escF rest) by
                simp [endRun]]
              exact (ih 0 (by omega)).2
          · by_cases ht : c = '\t'
            · subst ht
              refine ⟨?_, ?_⟩
              · show qOk p ('\\' :: 't' :: escF rest) = true
                rw [show qOk p ('\\' :: 't' :: escF rest) = qOk 0 (escF rest) by
                  simp [qOk]]
                exact (ih 0 (by omega)).1
              · show endRun p ('\\' :: 't' :: escF rest) % 2 = 0
                rw [show endRun p ('\\' :: 't' :: escF rest) = endRun 0 (escF rest) by
                  simp [endRun]]
                exact (ih 0 (by omega)).2
            · have hesc : escF (c :: rest) = c :: escF rest := by
                simp [escF, escChar, hb, hq, hn, hr, ht]
              rw [hesc]
              refine ⟨?_, ?_⟩
              · rw [show qOk p (c :: escF rest) = qOk 0 (escF rest) by
                  simp [qOk, hb, hq]]
                exact (ih 0 (by omega)).1
              · rw [show endRun p (c :: escF rest) = endRun 0 (escF rest) by
                  simp [endRun, hb]]
                exact (ih 0 (by omega)).2

theorem escF_head_ne_quote (s : Str) (c : Char) (t : Str)
    (h : escF s = c :: t) : c ≠ '"' := by
  cases s with
  | nil => simp [escF] at h
  | cons a rest =>
    by_cases hb : a = '\\'
    · subst hb
      have h2 : '\\' :: '\\' :: escF rest = c :: t := h
      injection h2 with h3 _
      rw [← h3]; decide
    · by_cases hq : a = '"'
      · subst hq
        have h2 : '\\' :: '"' :: escF rest = c :: t := h
        injection h2 with h3 _
        rw [← h3]; decide
      · by_cases hn : a = '\n'
        · subst hn
          have h2 : '\\' :: 'n' :: escF rest = c :: t := h
          injection h2 with h3 _
          rw [← h3]; decide
        · by_cases hr : a = '\r'
          · subst hr
            have h2 : '\\' :: 'r' :: escF rest = c :: t := h
            injection h2 with h3 _
            rw [← h3]; decide
          · by_cases ht : a = '\t'
            · subst ht
              have h2 : '\\' :: 't' :: escF rest = c :: t := h
              injection h2 with h3 _
              rw [← h3]; decide
            · have ha : escF (a :: rest) = a :: escF rest := by
                simp [escF, escChar, hb, hq, hn, hr, ht]
              rw [ha] at h
              injection h with h3 _
              rw [← h3]; exact hq

theorem needs_quotes_false_elim (d : Char) (x : Str)
    (h : needs_quotes d x = false) : hasChar d x = false ∧ x ≠ [] := by
  unfold needs_quotes at h
  simp only [Bool.or_eq_false_iff] at h
  refine ⟨h.1.1.1.1, ?_⟩
  intro hx
  subst hx
  have := h.1.2
  simp [List.isEmpty] at this

theorem tok_def (d : Char) (s : Str) :
    tok d s = if needs_quotes d (pyEscape s) then '"' :: (pyEscape s ++ ['"'])
      else pyEscape s := rfl

theorem pyEscape_qOk (s : Str) : qOk 0 (pyEscape s) = true := by
  rw [pyEscape_eq_escF]
  exact (escF_qOk s 0 (by omega)).1

theorem pyEscape_endRun (s : Str) : endRun 0 (pyEscape s) % 2 = 0 := by
  rw [pyEscape_eq_escF]
  exact (escF_qOk s 0 (by omega)).2

theorem pyEscape_head_ne_quote (s : Str) (c : Char) (t : Str)
    (h : pyEscape s = c :: t) : c ≠ '"' := by
  rw [pyEscape_eq_escF] at h
  exact escF_head_ne_quote s c t h

theorem qOk_singleton_quote (e : Nat) (he : e % 2 = 0) : qOk e ['"'] = false := by
  simp [qOk, he]

theorem tok_prefix_eq (d : Char) (s1 s2 : Str) (x1 x2 : Str)
    (hle : (tok d s1).length ≤ (tok d s2).length)
    (heq : tok d s1 ++ d :: x1 = tok d s2 ++ d :: x2) :
    tok d s1 = tok d s2 := by
  have htake : tok d s1 = (tok d s2).take (tok d s1).length := by
    have h1 : (tok d s1 ++ d :: x1).take (tok d s1).length = tok d s1 :=
      List.take_left _ _
    rw [heq, List.take_append_of_le_length hle] at h1
    exact h1.symm
  have hsplit : tok d s2 = tok d s1 ++ (tok d s2).drop (tok d s1).length := by
    conv_lhs => rw [← List.take_append_drop (tok d s1).length (tok d s2)]
    rw [← htake]
  cases hm : (tok d s2).drop (tok d s1).length with
  | nil => rw [hsplit, hm, List.append_nil]
  | cons c m2 =>
    exfalso
    rw [hm] at hsplit
    have heq2 : tok d s1 ++ d :: x1 = tok d s1 ++ (c :: (m2 ++ d :: x2)) := by
      rw [heq, hsplit]
      simp
    have hcd : d :: x1 = c :: (m2 ++ d :: x2) := List.append_cancel_left heq2
    have hc : c = d := by injection hcd with h1 _; exact h1.symm
    rw [hc] at hsplit
    by_cases q2 : needs_quotes d (pyEscape s2)
    · by_cases q1 : needs_quotes d (pyEscape s1)
      · -- both quoted: a quote would follow an even backslash run inside
        -- escaped text, which the scanner invariant forbids
        rw [tok_def d s1, if_pos q1, tok_def d s2, if_pos q2] at hsplit
        have hw : pyEscape s2 ++ ['"'] = (pyEscape s1 ++ ['"']) ++ d :: m2 := by
          rw [List.cons_append] at hsplit
          injection hsplit with _ h2
        have hlenw : (pyEscape s1).length + 1 ≤ (pyEscape s2).length := by
          have := congrArg List.length hw
          simp at this
          omega
        have htk : (pyEscape s2).take ((pyEscape s1).length + 1) =
            pyEscape s1 ++ ['"'] := by
          have h1 := congrArg (List.take ((pyEscape s1).length + 1)) hw
          rw [List.take_append_of_le_length hlenw] at h1
          rw [List.take_append_of_le_length (by simp)] at h1
          have hrhs : (pyEscape s1 ++ ['"']).take ((pyEscape s1).length + 1) =
              pyEscape s1 ++ ['"'] :=
            List.take_of_length_le (by simp)
          rw [hrhs] at h1
          exact h1
        have hw2 : pyEscape s2 = (pyEscape s1 ++ ['"']) ++
            (pyEscape s2).drop ((pyEscape s1).length + 1) := by
          conv_lhs =>
            rw [← List.take_append_drop ((pyEscape s1).length + 1) (pyEscape s2)]
          rw [htk]
        have hq2 : qOk 0 (pyEscape s2) = true := pyEscape_qOk s2
        rw [hw2, qOk_append, qOk_append] at hq2
        rw [qOk_singleton_quote (endRun 0 (pyEscape s1)) (pyEscape_endRun s1)] at hq2
        simp at hq2
      · -- s1 unquoted, s2 quoted: an unquoted token cannot start with a quote
        rw [tok_def d s1, if_neg q1, tok_def d s2, if_pos q2] at hsplit
        obtain ⟨-, hne⟩ := needs_quotes_false_elim d (pyEscape s1)
          (Bool.not_eq_true _ ▸ eq_false_of_ne_true q1)
        cases he : pyEscape s1 with
        | nil => exact hne he
        | cons e t1 =>
          rw [he] at hsplit
          have h2 : '"' :: (pyEscape s2 ++ ['"']) = e :: (t1 ++ d :: m2) := by
            rw [hsplit]; rfl
          injection h2 with h3 _
          exact pyEscape_head_ne_quote s1 e t1 he h3.symm
    · -- s2 unquoted: it cannot contain the delimiter
      rw [tok_def d s2, if_neg q2] at hsplit
      obtain ⟨hfree, -⟩ := needs_quotes_false_elim d (pyEscape s2)
        (Bool.not_eq_true _ ▸ eq_false_of_ne_true q2)
      rw [hsplit, hasChar_append] at hfree
      have hd : hasChar d (d :: m2) = true := by
        show (d == d || hasChar d m2) = true
        simp
      rw [hd] at hfree
      simp at hfree

theorem tok_headDet (d : Char) (s1 s2 : Str) (x1 x2 : Str)
    (heq : tok d s1 ++ d :: x1 = tok d s2 ++ d :: x2) :
    tok d s1 = tok d s2 ∧ x1 = x2 := by
  have hT : tok d s1 = tok d s2 := by
    rcases le_total (tok d s1).length (tok d s2).length with h | h
    · exact tok_prefix_eq d s1 s2 x1 x2 h heq
    · exact (tok_prefix_eq d s2 s1 x2 x1 h heq.symm).symm
  refine ⟨hT, ?_⟩
  rw [hT] at heq
  have h2 := List.append_cancel_left heq
  injection h2

theorem tok_inj (d : Char) (s1 s2 : Str) (h : tok d s1 = tok d s2) : s1 = s2 := by
  by_cases q1 : needs_quotes d (pyEscape s1) <;>
    by_cases q2 : needs_quotes d (pyEscape s2)
  · rw [tok_def d s1, if_pos q1, tok_def d s2, if_pos q2] at h
    injection h with _ h2
    have h3 := congrArg List.reverse h2
    simp at h3
    exact pyEscape_injective s1 s2 h3
  · exfalso
    rw [tok_def d s1, if_pos q1, tok_def d s2, if_neg q2] at h
    obtain ⟨-, hne⟩ := needs_quotes_false_elim d (pyEscape s2)
      (Bool.not_eq_true _ ▸ eq_false_of_ne_true q2)
    cases he : pyEscape s2 with
    | nil => exact hne he
    | cons e t2 =>
      rw [he] at h
      injection h with h3 _
      exact pyEscape_head_ne_quote s2 e t2 he h3.symm
  · exfalso
    rw [tok_def d s1, if_neg q1, tok_def d s2, if_pos q2] at h
    obtain ⟨-, hne⟩ := needs_quotes_false_elim d (pyEscape s1)
      (Bool.not_eq_true _ ▸ eq_false_of_ne_true q1)
    cases he : pyEscape s1 with
    | nil => exact hne he
    | cons e t1 =>
      rw [he] at h
      injection h with h3 _
      exact pyEscape_head_ne_quote s1 e t1 he h3
  · rw [tok_def d s1, if_neg q1, tok_def d s2, if_neg q2] at h
    exact pyEscape_injective s1 s2 h

theorem joinSep_tok_inj (d : Char) :
    ∀ l1 l2 : List Str, l1.length = l2.length →
      joinSep d (l1.map (tok d)) = joinSep d (l2.map (tok d)) → l1 = l2 := by
  intro l1
  induction l1 with
  | nil =>
    intro l2 hlen _
    cases l2 with
    | nil => rfl
    | cons s2 t2 => simp at hlen
  | cons s1 t1 ih =>
    intro l2 hlen hj
    cases l2 with
    | nil => simp at hlen
    | cons s2 t2 =>
      cases t1 with
      | nil =>
        cases t2 with
        | nil =>
          have h : tok d s1 = tok d s2 := hj
          rw [tok_inj d s1 s2 h]
        | cons u2 v2 => simp at hlen
      | cons u1 v1 =>
        cases t2 with
        | nil => simp at hlen
        | cons u2 v2 =>
          have hj2 : tok d s1 ++ d :: joinSep d ((u1 :: v1).map (tok d)) =
              tok d s2 ++ d :: joinSep d ((u2 :: v2).map (tok d)) := hj
          obtain ⟨hT, hrest⟩ := tok_headDet d s1 s2 _ _ hj2
          rw [tok_inj d s1 s2 hT,
            ih (u2 :: v2) (by simpa using hlen) hrest]

theorem sepFree_headDet (sep : Char) :
    ∀ t1 t2 x1 x2 : Str, hasChar sep t1 = false → hasChar sep t2 = false →
      t1 ++ sep :: x1 = t2 ++ sep :: x2 → t1 = t2 ∧ x1 = x2 := by
  intro t1
  induction t1 with
  | nil =>
    intro t2 x1 x2 _ h2 heq
    cases t2 with
    | nil =>
      refine ⟨rfl, ?_⟩
      have h3 : sep :: x1 = sep :: x2 := heq
      injection h3
    | cons c t2' =>
      exfalso
      have h3 : sep :: x1 = c :: (t2' ++ sep :: x2) := heq
      injection h3 with h4 _
      rw [show hasChar sep (c :: t2') = (c == sep || hasChar sep t2') from rfl] at h2
      rw [← h4] at h2
      simp at h2
  | cons c1 t1' ih =>
    intro t2 x1 x2 h1 h2 heq
    cases t2 with
    | nil =>
      exfalso
      have h3 : c1 :: (t1' ++ sep :: x1) = sep :: x2 := heq
      injection h3 with h4 _
      rw [show hasChar sep (c1 :: t1') = (c1 == sep || hasChar sep t1') from rfl,
        h4] at h1
      simp at h1
    | cons c2 t2' =>
      have h3 : c1 :: (t1' ++ sep :: x1) = c2 :: (t2' ++ sep :: x2) := heq
      injection h3 with h4 h5
      rw [show hasChar sep (c1 :: t1') = (c1 == sep || hasChar sep t1') from rfl] at h1
      rw [show hasChar sep (c2 :: t2') = (c2 == sep || hasChar sep t2') from rfl] at h2
      simp only [Bool.or_eq_false_iff] at h1 h2
      obtain ⟨heq1, hrest⟩ := ih t2' x1 x2 h1.2 h2.2 h5
      exact ⟨by rw [h4, heq1], hrest⟩

theorem joinSep_free_inj (sep : Char) :
    ∀ l1 l2 : List Str, l1.length = l2.length →
      (∀ p ∈ l1, hasChar sep p = false) → (∀ p ∈ l2, hasChar sep p = false) →
      joinSep sep l1 = joinSep sep l2 → l1 = l2 := by
  intro l1
  induction l1 with
  | nil =>
    intro l2 hlen _ _ _
    cases l2 with
    | nil => rfl
    | cons s2 t2 => simp at hlen
  | cons s1 t1 ih =>
    intro l2 hlen h1 h2 hj
    cases l2 with
    | nil => simp at hlen
    | cons s2 t2 =>
      cases t1 with
      | nil =>
        cases t2 with
        | nil =>
          have h : s1 = s2 := hj
          rw [h]
        | cons u2 v2 => simp at hlen
      | cons u1 v1 =>
        cases t2 with
        | nil => simp at hlen
        | cons u2 v2 =>
          have hj2 : s1 ++ sep :: joinSep sep (u1 :: v1) =
              s2 ++ sep :: joinSep sep (u2 :: v2) := hj
          obtain ⟨hT, hrest⟩ := sepFree_headDet sep s1 s2 _ _
            (h1 s1 (by simp)) (h2 s2 (by simp)) hj2
          rw [hT, ih (u2 :: v2) (by simpa using hlen)
            (fun p hp => h1 p (by simp [hp]))
            (fun p hp => h2 p (by simp [hp])) hrest]

theorem keys_map_lookup (r : Record) :
    ∀ keys : List Str, r.map Prod.fst = keys → keys.Nodup →
      keys.map (fun k => (dictLookup r k).getD PyVal.vNone) = r.map Prod.snd := by
  induction r with
  | nil =>
    intro keys hk _
    rw [← hk]
    rfl
  | cons kv r' ih =>
    intro keys hk hnd
    obtain ⟨k0, v0⟩ := kv
    rw [← hk] at hnd ⊢
    simp only [List.map_cons]
    have hhead : (dictLookup ((k0, v0) :: r') k0).getD PyVal.vNone = v0 := by
      simp [dictLookup]
    rw [hhead]
    have hnotmem : k0 ∉ r'.map Prod.fst := by
      have := List.nodup_cons.mp hnd
      exact this.1
    have hcong : (r'.map Prod.fst).map
        (fun k => (dictLookup ((k0, v0) :: r') k).getD PyVal.vNone) =
        (r'.map Prod.fst).map (fun k => (dictLookup r' k).getD PyVal.vNone) := by
      refine List.map_congr_left ?_
      intro k hkmem
      have hne : ¬ k0 = k := by
        intro h
        rw [h] at hnotmem
        exact hnotmem hkmem
      simp [dictLookup, hne]
    rw [hcong, ih (r'.map Prod.fst) rfl (List.nodup_cons.mp hnd).2]

theorem record_ext : ∀ r1 r2 : Record,
    r1.map Prod.fst = r2.map Prod.fst → r1.map Prod.snd = r2.map Prod.snd →
    r1 = r2 := by
  intro r1
  induction r1 with
  | nil =>
    intro r2 hf _
    cases r2 with
    | nil => rfl
    | cons kv2 t2 => exact List.noConfusion hf
  | cons kv1 t1 ih =>
    intro r2 hf hs
    cases r2 with
    | nil => exact List.noConfusion hf
    | cons kv2 t2 =>
      simp only [List.map_cons, List.cons.injEq] at hf hs
      have := ih t2 hf.2 hs.2
      rw [this]
      have : kv1 = kv2 := Prod.ext hf.1 hs.1
      rw [this]

theorem all_str_exists : ∀ l : List PyVal, (∀ v ∈ l, isStrB v = true) →
    ∃ ss : List Str, l = ss.map PyVal.vStr := by
  intro l
  induction l with
  | nil => intro _; exact ⟨[], rfl⟩
  | cons v t ih =>
    intro h
    obtain ⟨ss, hss⟩ := ih (fun w hw => h w (by simp [hw]))
    cases v with
    | vNone => exact absurd (h .vNone (by simp)) (by simp [isStrB])
    | vInt n => exact absurd (h (.vInt n) (by simp)) (by simp [isStrB])
    | vStr s => exact ⟨s :: ss, by rw [hss]; rfl⟩

theorem rowLine_eq (d : Char) (keys : List Str) (r : Record)
    (hk : r.map Prod.fst = keys) (hnd : keys.Nodup) :
    rowLine d keys r = joinSep d ((r.map Prod.snd).map (escape_string d)) := by
  unfold rowLine
  rw [← keys_map_lookup r keys hk hnd, List.map_map]
  rfl

theorem batch_rows_inj (d : Char) (keys : List Str) (hnd : keys.Nodup) :
    ∀ b1 b2 : List Record,
      (∀ r ∈ b1, r.map Prod.fst = keys) → (∀ r ∈ b2, r.map Prod.fst = keys) →
      (∀ r ∈ b1, ∀ kv ∈ r, isStrB (Prod.snd kv) = true) →
      (∀ r ∈ b2, ∀ kv ∈ r, isStrB (Prod.snd kv) = true) →
      b1.map (rowLine d keys) = b2.map (rowLine d keys) → b1 = b2 := by
  intro b1
  induction b1 with
  | nil =>
    intro b2 _ _ _ _ hmap
    cases b2 with
    | nil => rfl
    | cons r2 t2 => simp at hmap
  | cons r1 t1 ih =>
    intro b2 h1k h2k h1s h2s hmap
    cases b2 with
    | nil => simp at hmap
    | cons r2 t2 =>
      simp only [List.map_cons, List.cons.injEq] at hmap
      have hk1 : r1.map Prod.fst = keys := h1k r1 (by simp)
      have hk2 : r2.map Prod.fst = keys := h2k r2 (by simp)
      have hrow := hmap.1
      rw [rowLine_eq d keys r1 hk1 hnd, rowLine_eq d keys r2 hk2 hnd] at hrow
      obtain ⟨ss1, hss1⟩ := all_str_exists (r1.map Prod.snd) (by
        intro v hv
        obtain ⟨kv, hkv, rfl⟩ := List.mem_map.mp hv
        exact h1s r1 (by simp) kv hkv)
      obtain ⟨ss2, hss2⟩ := all_str_exists (r2.map Prod.snd) (by
        intro v hv
        obtain ⟨kv, hkv, rfl⟩ := List.mem_map.mp hv
        exact h2s r2 (by simp) kv hkv)
      rw [hss1, hss2, List.map_map, List.map_map] at hrow
      have htok : (escape_string d ∘ PyVal.vStr) = tok d := rfl
      rw [htok] at hrow
      have hlen : ss1.length = ss2.length := by
        have l1 : ss1.length = keys.length := by
          have := congrArg List.length hss1
          simp at this
          rw [← this]
          have := congrArg List.length hk1
          simpa using this
        have l2 : ss2.length = keys.length := by
          have := congrArg List.length hss2
          simp at this
          rw [← this]
          have := congrArg List.length hk2
          simpa using this
        rw [l1, l2]
      have hss := joinSep_tok_inj d ss1 ss2 hlen hrow
      have hsnd : r1.map Prod.snd = r2.map Prod.snd := by
        rw [hss1, hss2, hss]
      have hr : r1 = r2 := record_ext r1 r2 (by rw [hk1, hk2]) hsnd
      have ht : t1 = t2 := ih t2
        (fun r hr => h1k r (by simp [hr]))
        (fun r hr => h2k r (by simp [hr]))
        (fun r hr => h1s r (by simp [hr]))
        (fun r hr => h2s r (by simp [hr]))
        hmap.2
      rw [hr, ht]

/-- C9 (amended): for a fixed newline-free array name and a fixed
duplicate-free, newline-free column set, the encoding is injective on
homogeneous batches all of whose values are strings: two distinct such
batches never produce the same encoded string. -/
theorem format_tabular_injective_strings
    (name : Str) (keys : List Str) (b1 b2 : List Record)
    (hname : hasChar '\n' name = false)
    (hkeys : ∀ k ∈ keys, hasChar '\n' k = false)
    (hnd : keys.Nodup)
    (h1k : ∀ r ∈ b1, r.map Prod.fst = keys)
    (h2k : ∀ r ∈ b2, r.map Prod.fst = keys)
    (h1s : ∀ r ∈ b1, ∀ kv ∈ r, isStrB (Prod.snd kv) = true)
    (h2s : ∀ r ∈ b2, ∀ kv ∈ r, isStrB (Prod.snd kv) = true)
    (heq : format_tabular b1 name = format_tabular b2 name) :
    b1 = b2 := by
  have hk1h : ∀ k ∈ (b1.headD []).map Prod.fst, hasChar '\n' k = false := by
    cases b1 with
    | nil => intro k hk; exact absurd hk (by simp)
    | cons r t =>
      intro k hk
      have hr : r.map Prod.fst = keys := h1k r (by simp)
      have hk2 : k ∈ keys := by
        rw [← hr]
        exact hk
      exact hkeys k hk2
  have hk2h : ∀ k ∈ (b2.headD []).map Prod.fst, hasChar '\n' k = false := by
    cases b2 with
    | nil => intro k hk; exact absurd hk (by simp)
    | cons r t =>
      intro k hk
      have hr : r.map Prod.fst = keys := h2k r (by simp)
      have hk2 : k ∈ keys := by
        rw [← hr]
        exact hk
      exact hkeys k hk2
  have hn : b1.length = b2.length := by
    have c1 := format_tabular_nl name b1 hname hk1h
    have c2 := format_tabular_nl name b2 hname hk2h
    rw [← c1, ← c2, heq]
  cases b1 with
  | nil =>
    cases b2 with
    | nil => rfl
    | cons r2 t2 => exact absurd hn (by simp)
  | cons r1 t1 =>
    cases b2 with
    | nil => exact absurd hn (by simp)
    | cons r2 t2 =>
      have hk1 : r1.map Prod.fst = keys := h1k r1 (by simp)
      have hk2 : r2.map Prod.fst = keys := h2k r2 (by simp)
      have hfmt1 : format_tabular (r1 :: t1) name =
          joinSep '\n' (header_line name (r1 :: t1).length
              (if chooseDelimiter (r1 :: t1) = '|' then ['|'] else []) keys ::
            (r1 :: t1).map (rowLine (chooseDelimiter (r1 :: t1)) keys)) := by
        show joinSep '\n'
            (header_line name (r1 :: t1).length _ (r1.map Prod.fst) ::
              (r1 :: t1).map (rowLine (chooseDelimiter (r1 :: t1)) (r1.map Prod.fst))) = _
        rw [hk1]
      have hfmt2 : format_tabular (r2 :: t2) name =
          joinSep '\n' (header_line name (r2 :: t2).length
              (if chooseDelimiter (r2 :: t2) = '|' then ['|'] else []) keys ::
            (r2 :: t2).map (rowLine (chooseDelimiter (r2 :: t2)) keys)) := by
        show joinSep '\n'
            (header_line name (r2 :: t2).length _ (r2.map Prod.fst) ::
              (r2 :: t2).map (rowLine (chooseDelimiter (r2 :: t2)) (r2.map Prod.fst))) = _
        rw [hk2]
      rw [hfmt1, hfmt2] at heq
      have hdelim1 : chooseDelimiter (r1 :: t1) ≠ '\n' := by
        rcases chooseDelimiter_cases (r1 :: t1) with h | h <;> rw [h] <;> decide
      have hdelim2 : chooseDelimiter (r2 :: t2) ≠ '\n' := by
        rcases chooseDelimiter_cases (r2 :: t2) with h | h <;> rw [h] <;> decide
      have hm1 : hasChar '\n'
          (if chooseDelimiter (r1 :: t1) = '|' then ['|'] else ([] : Str)) = false := by
        split <;> rfl
      have hm2 : hasChar '\n'
          (if chooseDelimiter (r2 :: t2) = '|' then ['|'] else ([] : Str)) = false := by
        split <;> rfl
      have hfree1 : ∀ p ∈ header_line name (r1 :: t1).length
          (if chooseDelimiter (r1 :: t1) = '|' then ['|'] else []) keys ::
            (r1 :: t1).map (rowLine (chooseDelimiter (r1 :: t1)) keys),
          hasChar '\n' p = false := by
        intro p hp
        rcases List.mem_cons.mp hp with h | h
        · subst h
          exact header_nl_free name _ _ _ hname hkeys hm1
        · obtain ⟨r, _, rfl⟩ := List.mem_map.mp h
          exact rowLine_nl_free _ _ r hdelim1
      have hfree2 : ∀ p ∈ header_line name (r2 :: t2).length
          (if chooseDelimiter (r2 :: t2) = '|' then ['|'] else []) keys ::
            (r2 :: t2).map (rowLine (chooseDelimiter (r2 :: t2)) keys),
          hasChar '\n' p = false := by
        intro p hp
        rcases List.mem_cons.mp hp with h | h
        · subst h
          exact header_nl_free name _ _ _ hname hkeys hm2
        · obtain ⟨r, _, rfl⟩ := List.mem_map.mp h
          exact rowLine_nl_free _ _ r hdelim2
      have hlists := joinSep_free_inj '\n' _ _
        (by have := hn; simp at this; simp [this]) hfree1 hfree2 heq
      have hheader := (List.cons.injEq _ _ _ _).mp hlists
      have hrows := hheader.2
      have hhead := hheader.1
      have hlen12 : (r1 :: t1).length = (r2 :: t2).length := hn
      rw [← hlen12] at hhead
      unfold header_line at hhead
      have h1 := List.append_cancel_left hhead
      have h2 : (natStr (r1 :: t1).length ++
            (if chooseDelimiter (r1 :: t1) = '|' then ['|'] else [])) ++
            ']' :: '{' :: (joinSep ',' keys ++ ['}', ':']) =
          (natStr (r1 :: t1).length ++
            (if chooseDelimiter (r2 :: t2) = '|' then ['|'] else [])) ++
            ']' :: '{' :: (joinSep ',' keys ++ ['}', ':']) := by
        injection h1
      have h3 := List.append_cancel_right h2
      have hmarker := List.append_cancel_left h3
      have hdeq : chooseDelimiter (r1 :: t1) = chooseDelimiter (r2 :: t2) := by
        rcases chooseDelimiter_cases (r1 :: t1) with ha | ha <;>
          rcases chooseDelimiter_cases (r2 :: t2) with hb | hb
        · rw [ha, hb]
        · rw [ha, hb] at hmarker
          exact absurd hmarker (by decide)
        · rw [ha, hb] at hmarker
          exact absurd hmarker (by decide)
        · rw [ha, hb]
      rw [← hdeq] at hrows
      exact batch_rows_inj (chooseDelimiter (r1 :: t1)) keys hnd
        (r1 :: t1) (r2 :: t2) h1k h2k h1s h2s hrows

/-- C9 counterexample: a null value and the literal string `null` (and an
integer and its decimal string) produce identical TOON encodings for
distinct batches, so the encoding as implemented is not injective and a
decoder cannot distinguish them. -/
theorem format_tabular_null_collision :
    format_tabular [[("msg".toList, PyVal.vNone)]] "errors".toList =
      format_tabular [[("msg".toList, PyVal.vStr "null".toList)]] "errors".toList ∧
    ([[("msg".toList, PyVal.vNone)]] : List Record) ≠
      [[("msg".toList, PyVal.vStr "null".toList)]] ∧
    format_tabular [[("msg".toList, PyVal.vInt 5)]] "errors".toList =
      format_tabular [[("msg".toList, PyVal.vStr "5".toList)]] "errors".toList ∧
    ([[("msg".toList, PyVal.vInt 5)]] : List Record) ≠
      [[("msg".toList, PyVal.vStr "5".toList)]] :=
  ⟨by decide, by decide, by decide, by decide⟩

/-- C9 witness: the amended injectivity applied to a concrete all-string
batch. -/
theorem format_tabular_injective_strings_check :
    ([[("svc".toList, PyVal.vStr "api".toList)]] : List Record) =
      [[("svc".toList, PyVal.vStr "api".toList)]] :=
  format_tabular_injective_strings "errors".toList ["svc".toList]
    [[("svc".toList, PyVal.vStr "api".toList)]]
    [[("svc".toList, PyVal.vStr "api".toList)]]
    (by decide) (by decide) (by decide) (by decide) (by decide)
    (by decide) (by decide) rfl
